import Mathlib

/-!
Verification of the LLMTypeSafe repository's agentic loop (`RespAct`) and its
signature / output-parsing engine, as a shallow embedding in Lean.

Sources embedded:
* `packages/core/src/core/signature.ts` (`Signature.parseStringSignature`)
* `packages/core/src/utils/parsing.ts` (`parseOutput`, `extractFieldValue`,
  `convertValue`)
* the `RespAct` module (`forward`, `executeTool`, `extractToolCall`,
  `extractFinalAnswer`, `buildInitialPrompt`, the constructor's
  normalisation of `tools` and `maxSteps`)

Modelling conventions:
* JavaScript strings are Lean `String`s; the scanning helpers work on
  `List Char` so that concrete runs reduce in the kernel.
* JS numbers are carried by their literal text (constructor `JsValue.num`);
  no claim below compares numeric values, only their presence.
* `null`/`undefined` field values are `Option.none`; thrown JS exceptions
  are `Except.error`.
* Asynchronous tool functions are modelled as pure
  `String → Except String String` (the loop awaits exactly one call at a
  time, so sequential purity is faithful).
-/

/-! ## Character and list-of-characters utilities -/

/-- JS `\s` for the ASCII whitespace the repository's strings contain. -/
def isWsChar (c : Char) : Bool :=
  c = ' ' || c = '\t' || c = '\n' || c = '\r'

/-- JS `\w`: letters, digits, underscore. -/
def isWordChar (c : Char) : Bool :=
  c.isAlphanum || c = '_'

/-- Case-insensitive character comparison (JS `i` regex flag). -/
def ciEq (a b : Char) : Bool :=
  a.toLower = b.toLower

/-- Case-insensitive "needle is a prefix of hay". -/
def ciStartsWith : List Char → List Char → Bool
  | [], _ => true
  | _ :: _, [] => false
  | a :: as, b :: bs => ciEq a b && ciStartsWith as bs

/-- Trim ASCII whitespace from both ends (JS `String.prototype.trim`). -/
def trimList (l : List Char) : List Char :=
  ((l.dropWhile isWsChar).reverse.dropWhile isWsChar).reverse

/-- String-level trim built on `trimList`. -/
def strTrim (s : String) : String :=
  String.mk (trimList s.data)

/-- JS `toLowerCase` (ASCII). -/
def lowerStr (s : String) : String :=
  String.mk (s.data.map Char.toLower)

/-- Case-sensitive substring test on char lists. -/
def containsSubList (needle : List Char) : List Char → Bool
  | [] => needle.isEmpty
  | c :: rest => needle.isPrefixOf (c :: rest) || containsSubList needle rest

/-- JS `String.prototype.includes`. -/
def containsStr (s sub : String) : Bool :=
  containsSubList sub.data s.data

/-- Everything after the first (case-sensitive) occurrence of `needle`,
`none` when `needle` does not occur. -/
def afterFirstSub (needle : List Char) : List Char → Option (List Char)
  | [] => if needle.isEmpty then some [] else none
  | c :: rest =>
    if needle.isPrefixOf (c :: rest) then some ((c :: rest).drop needle.length)
    else afterFirstSub needle rest

/-- Split on every character satisfying `p` (JS `split` with a
single-character-class regex). -/
def splitChar (p : Char → Bool) : List Char → List (List Char)
  | [] => [[]]
  | c :: rest =>
    if p c then [] :: splitChar p rest
    else
      match splitChar p rest with
      | [] => [[c]]
      | g :: gs => (c :: g) :: gs

/-- JS `split('->')`: split on each non-overlapping occurrence of `->`,
scanning left to right. -/
def splitArrow : List Char → List (List Char)
  | [] => [[]]
  | '-' :: '>' :: rest => [] :: splitArrow rest
  | c :: rest =>
    match splitArrow rest with
    | [] => [[c]]
    | g :: gs => (c :: g) :: gs

/-- JS `Array.prototype.join(', ')`. -/
def joinComma : List String → String
  | [] => ""
  | [s] => s
  | s :: rest => s ++ ", " ++ joinComma rest

/-- JS `Array.prototype.join('\n')`. -/
def joinNewline : List String → String
  | [] => ""
  | [s] => s
  | s :: rest => s ++ "\n" ++ joinNewline rest

/-- Lookup where the last entry with the key wins: the semantics a spread
of `Object.fromEntries` results gives a JS object literal. -/
def jsLookupLast (l : List (String × String)) (k : String) : Option String :=
  (l.reverse.find? (fun p => p.1 = k)).map Prod.snd

/-! ## JS values -/

/-- The JS values the pipeline produces: strings, numbers (carried by their
literal text), booleans, `null`, arrays and objects from `JSON.parse`. -/
inductive JsValue where
  | str (s : String)
  | num (lit : String)
  | bool (b : Bool)
  | null
  | arr (xs : List JsValue)
  | obj (fs : List (String × JsValue))
deriving BEq, Repr

/-! ## `JSON.parse` / `JSON.stringify` (the subset the code exercises) -/

def isJsonDigit (c : Char) : Bool := c.isDigit

/-- JSON number grammar: `-? (0 | [1-9][0-9]*) (. [0-9]+)? ([eE][+-]?[0-9]+)?`;
returns the literal text and the rest. -/
def jsonScanNum (l : List Char) : Option (String × List Char) :=
  let (sign, l1) := match l with
    | '-' :: r => (['-'], r)
    | _ => (([] : List Char), l)
  let intPart := l1.takeWhile isJsonDigit
  if intPart.isEmpty then none
  else if intPart.length > 1 && intPart.headD '0' = '0' then none
  else
    let l2 := l1.drop intPart.length
    let (fracPart, l3) :=
      match l2 with
      | '.' :: r =>
        let ds := r.takeWhile isJsonDigit
        if ds.isEmpty then (([] : List Char), l2)
        else ('.' :: ds, r.drop ds.length)
      | _ => (([] : List Char), l2)
    let (expPart, l4) :=
      match l3 with
      | e :: r =>
        if e = 'e' || e = 'E' then
          let (es, r1) := match r with
            | '+' :: r2 => (['+'], r2)
            | '-' :: r2 => (['-'], r2)
            | _ => (([] : List Char), r)
          let ds := r1.takeWhile isJsonDigit
          if ds.isEmpty then (([] : List Char), l3)
          else (e :: (es ++ ds), r1.drop ds.length)
        else (([] : List Char), l3)
      | [] => (([] : List Char), l3)
    some (String.mk (sign ++ intPart ++ fracPart ++ expPart), l4)

def hexNibble (c : Char) : Option Nat :=
  let n := c.toNat
  if 48 ≤ n && n ≤ 57 then some (n - 48)
  else if 97 ≤ n && n ≤ 102 then some (n - 87)
  else if 65 ≤ n && n ≤ 70 then some (n - 55)
  else none

/-- The value of a single-character JSON escape, `none` for an invalid one. -/
def jsonEsc (e : Char) : Option Char :=
  if e = '"' || e = '\\' || e = '/' then some e
  else if e = 'n' then some '\n'
  else if e = 't' then some '\t'
  else if e = 'r' then some '\r'
  else if e = 'b' then some (Char.ofNat 8)
  else if e = 'f' then some (Char.ofNat 12)
  else none

/-- JSON string body after the opening quote; `acc` is reversed. -/
def jsonScanStr (acc : List Char) : List Char → Option (String × List Char)
  | [] => none
  | '"' :: r => some (String.mk acc.reverse, r)
  | '\\' :: r =>
    (match r with
     | 'u' :: h1 :: h2 :: h3 :: h4 :: r2 =>
       (match hexNibble h1, hexNibble h2, hexNibble h3, hexNibble h4 with
        | some a, some b, some c, some d =>
          jsonScanStr ((Char.ofNat (a * 4096 + b * 256 + c * 16 + d)) :: acc) r2
        | _, _, _, _ => none)
     | e :: r2 =>
       (match jsonEsc e with
        | some ch => jsonScanStr (ch :: acc) r2
        | none => none)
     | [] => none)
  | c :: r => if c.toNat < 32 then none else jsonScanStr (c :: acc) r

def jsonWs (l : List Char) : List Char :=
  l.dropWhile (fun c => c = ' ' || c = '\t' || c = '\n' || c = '\r')

mutual

def jsonParseV : Nat → List Char → Option (JsValue × List Char)
  | 0, _ => none
  | fuel + 1, l =>
    match jsonWs l with
    | 'n' :: 'u' :: 'l' :: 'l' :: r => some (.null, r)
    | 't' :: 'r' :: 'u' :: 'e' :: r => some (.bool true, r)
    | 'f' :: 'a' :: 'l' :: 's' :: 'e' :: r => some (.bool false, r)
    | '"' :: r => (jsonScanStr [] r).map (fun p => (.str p.1, p.2))
    | '[' :: r =>
      (match jsonWs r with
       | ']' :: r2 => some (.arr [], r2)
       | _ => (jsonParseElems fuel r).map (fun p => (.arr p.1, p.2)))
    | c :: r =>
      if c = Char.ofNat 123 then
        match jsonWs r with
        | c2 :: r2 =>
          if c2 = Char.ofNat 125 then some (.obj [], r2)
          else (jsonParseMembers fuel (c2 :: r2)).map (fun p => (.obj p.1, p.2))
        | [] => none
      else
        (jsonScanNum (c :: r)).map (fun p => (.num p.1, p.2))
    | [] => none

def jsonParseElems : Nat → List Char → Option (List JsValue × List Char)
  | 0, _ => none
  | fuel + 1, l =>
    match jsonParseV fuel l with
    | none => none
    | some (v, r) =>
      match jsonWs r with
      | ',' :: r2 =>
        (jsonParseElems fuel r2).map (fun p => (v :: p.1, p.2))
      | ']' :: r2 => some ([v], r2)
      | _ => none

def jsonParseMembers : Nat → List Char → Option (List (String × JsValue) × List Char)
  | 0, _ => none
  | fuel + 1, l =>
    match jsonWs l with
    | '"' :: r =>
      match jsonScanStr [] r with
      | none => none
      | some (k, r1) =>
        match jsonWs r1 with
        | ':' :: r2 =>
          match jsonParseV fuel r2 with
          | none => none
          | some (v, r3) =>
            match jsonWs r3 with
            | ',' :: r4 =>
              (jsonParseMembers fuel r4).map (fun p => ((k, v) :: p.1, p.2))
            | c :: r4 =>
              if c = Char.ofNat 125 then some ([(k, v)], r4) else none
            | [] => none
        | _ => none
    | _ => none

end

/-- `JSON.parse` as used by the repository: `some` on success, `none` where
JS would throw (always caught at the call sites). -/
def jsonParse (s : String) : Option JsValue :=
  match jsonParseV (s.length + 2) s.data with
  | some (v, r) => if (jsonWs r).isEmpty then some v else none
  | none => none

def jsonQuote (s : String) : String :=
  let esc : Char → List Char := fun c =>
    if c = '"' then ['\\', '"']
    else if c = '\\' then ['\\', '\\']
    else if c = '\n' then ['\\', 'n']
    else if c = '\t' then ['\\', 't']
    else if c = '\r' then ['\\', 'r']
    else [c]
  String.mk ('"' :: (s.data.flatMap esc) ++ ['"'])

mutual

def jsonStringify : JsValue → String
  | .str s => jsonQuote s
  | .num lit => lit
  | .bool true => "true"
  | .bool false => "false"
  | .null => "null"
  | .arr xs => "[" ++ jsonStringifyList xs ++ "]"
  | .obj fs => "\x7b" ++ jsonStringifyMembers fs ++ "\x7d"

def jsonStringifyList : List JsValue → String
  | [] => ""
  | [x] => jsonStringify x
  | x :: y :: rest => jsonStringify x ++ "," ++ jsonStringifyList (y :: rest)

def jsonStringifyMembers : List (String × JsValue) → String
  | [] => ""
  | [(k, v)] => jsonQuote k ++ ":" ++ jsonStringify v
  | (k, v) :: m :: rest =>
    jsonQuote k ++ ":" ++ jsonStringify v ++ "," ++ jsonStringifyMembers (m :: rest)

end

/-! ## JS number recognizers (decimal forms; hex/`Infinity` forms never
arise on the claims' inputs and are not modelled) -/

def scanExponent (l : List Char) : List Char × List Char :=
  match l with
  | e :: r =>
    if e = 'e' || e = 'E' then
      let (es, r1) := match r with
        | '+' :: r2 => (['+'], r2)
        | '-' :: r2 => (['-'], r2)
        | _ => (([] : List Char), r)
      let ds := r1.takeWhile isJsonDigit
      if ds.isEmpty then (([] : List Char), l) else (e :: (es ++ ds), r1.drop ds.length)
    else (([] : List Char), l)
  | [] => (([] : List Char), l)

/-- Longest decimal-literal prefix (`sign? (digits (. digits*)? | . digits+) exp?`);
returns the literal and the rest. -/
def scanDecimalLit (l : List Char) : Option (List Char × List Char) :=
  let (sign, l1) := match l with
    | '+' :: r => (['+'], r)
    | '-' :: r => (['-'], r)
    | _ => (([] : List Char), l)
  let ds := l1.takeWhile isJsonDigit
  if ds.isEmpty then
    match l1 with
    | '.' :: r =>
      let fs := r.takeWhile isJsonDigit
      if fs.isEmpty then none
      else
        let (ex, rest) := scanExponent (r.drop fs.length)
        some (sign ++ ('.' :: fs) ++ ex, rest)
    | _ => none
  else
    let l2 := l1.drop ds.length
    let (frac, l3) := match l2 with
      | '.' :: r => ('.' :: r.takeWhile isJsonDigit, r.drop (r.takeWhile isJsonDigit).length)
      | _ => (([] : List Char), l2)
    let (ex, l4) := scanExponent l3
    some (sign ++ ds ++ frac ++ ex, l4)

/-- JS `Number(s)` restricted to finite decimal notation: `some` literal text
when the whole trimmed string is numeric (empty/whitespace coerces to 0),
`none` where JS yields `NaN`. -/
def jsNumberLit (s : String) : Option String :=
  let t := trimList s.data
  if t.isEmpty then some "0"
  else
    match scanDecimalLit t with
    | some (lit, []) => some (String.mk lit)
    | _ => none

/-- JS `parseFloat`: longest leading decimal literal, `none` for `NaN`. -/
def jsParseFloatLit (s : String) : Option String :=
  match scanDecimalLit (s.data.dropWhile isWsChar) with
  | some (lit, _) => some (String.mk lit)
  | none => none

/-- JS `parseInt` (radix-10 path): leading sign and digits, `none` for `NaN`. -/
def jsParseIntLit (s : String) : Option String :=
  let l := s.data.dropWhile isWsChar
  let (sign, l1) := match l with
    | '+' :: r => (['+'], r)
    | '-' :: r => (['-'], r)
    | _ => (([] : List Char), l)
  let ds := l1.takeWhile isJsonDigit
  if ds.isEmpty then none else some (String.mk (sign ++ ds))

/-! ## `convertValue` (parsing.ts lines 274-332) -/

/-- `value.split(/[,;\n]/).map(trim).filter(nonempty)` from the array branch. -/
def jsSplitDelims (value : String) : List String :=
  ((splitChar (fun c => c = ',' || c = ';' || c = '\n') value.data).map
    (fun g => String.mk (trimList g))).filter (fun s => s ≠ "")

/-- The shared "looks like a JSON object/array → opportunistic parse" branch. -/
def autoJson (value : String) : JsValue :=
  let looksJson :=
    match value.data with
    | c :: _ =>
      (c = Char.ofNat 123 && value.data.getLast? = some (Char.ofNat 125)) ||
      (c = '[' && value.data.getLast? = some ']')
    | [] => false
  if looksJson then (jsonParse value).getD (.str value) else .str value

/-- `convertValue(value, type)`: type coercion after extraction. A `none`
type is JS `undefined`; the falsy-or-`'string'` first branch and the
`switch` default both reduce to `autoJson`. -/
def convertValue (value : String) (ty : Option String) : JsValue :=
  match ty with
  | none => autoJson value
  | some t =>
    if t = "string" then autoJson value
    else
      let tl := lowerStr t
      if tl = "number" || tl = "float" then
        match jsParseFloatLit value with
        | some lit => .num lit
        | none => .str value
      else if tl = "int" || tl = "integer" then
        match jsParseIntLit value with
        | some lit => .num lit
        | none => .str value
      else if tl = "boolean" || tl = "bool" then
        .bool (lowerStr value = "true" || value = "1")
      else if tl = "array" || tl = "list" then
        match jsonParse value with
        | some v => v
        | none => .arr ((jsSplitDelims value).map .str)
      else if tl = "object" || tl = "json" then
        match jsonParse value with
        | some v => v
        | none => .str value
      else autoJson value

/-! ## `extractFieldValue` (parsing.ts lines 223-272)

The five regexes are embedded as left-to-right scanners; each returns the
raw capture (`match[1]`) of the leftmost successful match, `none` when the
regex fails (or, equivalently for the caller, when only an all-whitespace
capture exists). -/

/-- Remove the artifact runs: `^\*+|\*+$` then a single `^["']` and `["']$`. -/
def stripArtifacts (s : String) : String :=
  let l1 := ((s.data.dropWhile (fun c => c = '*')).reverse.dropWhile (fun c => c = '*')).reverse
  let l2 := match l1 with
    | c :: r => if c = '"' || c = Char.ofNat 39 then r else l1
    | [] => l1
  let l3 := match l2.reverse with
    | c :: r => if c = '"' || c = Char.ofNat 39 then r.reverse else l2
    | [] => l2
  String.mk l3

/-- Try the continuation `k` at each position of the text, left to right;
`k` gets the preceding character (for word boundaries) and the text after a
case-insensitive occurrence of `field`. -/
def scanMatch (field : List Char) (k : Option Char → List Char → Option String) :
    Option Char → List Char → Option String
  | prev, l =>
    match (if ciStartsWith field l then k prev (l.drop field.length) else none) with
    | some v => some v
    | none =>
      match l with
      | [] => none
      | c :: rest => scanMatch field k (some c) rest

/-- Lazy `(.+?)` capture: at least one character, extended until `stop`
holds at the position after the capture. -/
def lazyCapture (stop : List Char → Bool) : List Char → Option (List Char)
  | [] => none
  | c :: rest =>
    if stop rest then some [c]
    else (lazyCapture stop rest).map (fun l => c :: l)

/-- Lazy `([\s\S]*?)` capture: possibly empty, ends where `stop` holds. -/
def lazyCapture0 (stop : List Char → Bool) : List Char → List Char
  | [] => []
  | c :: rest => if stop (c :: rest) then [] else c :: lazyCapture0 stop rest

/-- Lookahead `(?=\n\s*\w+\s*:)` of the strictest pattern. -/
def lookaheadP1 : List Char → Bool
  | '\n' :: r =>
    let r1 := r.dropWhile isWsChar
    let w := r1.takeWhile isWordChar
    if w.isEmpty then false
    else
      match (r1.drop w.length).dropWhile isWsChar with
      | ':' :: _ => true
      | _ => false
  | _ => false

/-- `fieldName\s*:\s*(.+?)(?=\n\s*\w+\s*:|$)` with flags `is`. -/
def pattern1 (field text : List Char) : Option String :=
  scanMatch field
    (fun _ rest =>
      match rest.dropWhile isWsChar with
      | ':' :: r2 =>
        (lazyCapture (fun l => l.isEmpty || lookaheadP1 l) (r2.dropWhile isWsChar)).map String.mk
      | _ => none)
    none text

/-- `fieldName\s*[=:]\s*(.+?)(?=\n|$)` with flags `is`. -/
def pattern2 (field text : List Char) : Option String :=
  scanMatch field
    (fun _ rest =>
      match rest.dropWhile isWsChar with
      | c :: r2 =>
        if c = ':' || c = '=' then
          (lazyCapture (fun l => l.isEmpty || l.headD ' ' = '\n') (r2.dropWhile isWsChar)).map String.mk
        else none
      | [] => none)
    none text

/-- Backtracking of a greedy character-class run followed by `[^\n]+`:
largest prefix length `j` of the run such that a non-newline character
follows. -/
def classBacktrack (rest : List Char) : Nat → Option Nat
  | 0 =>
    (match rest with
     | c :: _ => if c ≠ '\n' then some 0 else none
     | [] => none)
  | j + 1 =>
    match rest.drop (j + 1) with
    | c :: _ => if c ≠ '\n' then some (j + 1) else classBacktrack rest j
    | [] => classBacktrack rest j

/-- `\bfieldName\b[:\s=]*([^\n]+)` with flag `i`. -/
def pattern3 (field text : List Char) : Option String :=
  scanMatch field
    (fun prev rest =>
      let boundaryBefore := match prev with
        | none => true
        | some c => !isWordChar c
      let boundaryAfter := match rest with
        | [] => true
        | c :: _ => !isWordChar c
      if boundaryBefore && boundaryAfter then
        let run := rest.takeWhile (fun c => c = ':' || c = '=' || isWsChar c)
        match classBacktrack rest run.length with
        | some j => some (String.mk ((rest.drop j).takeWhile (fun c => c ≠ '\n')))
        | none => none
      else none)
    none text

/-- `fieldName[:\s]*([^\n]+?)(?=\n|$)` with flag `i`. -/
def pattern4 (field text : List Char) : Option String :=
  scanMatch field
    (fun _ rest =>
      let run := rest.takeWhile (fun c => c = ':' || isWsChar c)
      match classBacktrack rest run.length with
      | some j => some (String.mk ((rest.drop j).takeWhile (fun c => c ≠ '\n')))
      | none => none)
    none text

/-- Lookahead `(?=\n\s*[A-Z]|$)`; under the `i` flag `[A-Z]` matches any
ASCII letter. -/
def lookaheadP5 : List Char → Bool
  | '\n' :: r =>
    (match r.dropWhile isWsChar with
     | c :: _ => c.isAlpha
     | [] => false)
  | _ => false

/-- `fieldName[^\w]*([\s\S]*?)(?=\n\s*[A-Z]|$)` with flag `i`; the capture
may be empty, which the caller treats as no value. -/
def pattern5 (field text : List Char) : Option String :=
  scanMatch field
    (fun _ rest =>
      some (String.mk (lazyCapture0 lookaheadP5 (rest.dropWhile (fun c => !isWordChar c)))))
    none text

/-- Shared post-processing of a pattern capture: trim, strip artifacts,
trim again, keep only non-empty values, coerce. -/
def tryPatternValue (raw : Option String) (ty : Option String) : Option JsValue :=
  match raw with
  | none => none
  | some m =>
    let value := strTrim (stripArtifacts (strTrim m))
    if value ≠ "" then some (convertValue value ty) else none

/-- `extractFieldValue(text, fieldName, fieldType)`: the whole-reply special
case (keyed on the field being literally named `answer`), then the five
patterns in order of strictness. Total: absence of a match is `none`. -/
def extractFieldValue (text fieldName : String) (ty : Option String) : Option JsValue :=
  let special :=
    if fieldName == "answer" && !(text.data.contains ':') && !(text.data.contains '\n') then
      let value := stripArtifacts (strTrim text)
      if value ≠ "" then some (convertValue value ty) else none
    else none
  match special with
  | some v => some v
  | none =>
    let fl := fieldName.data
    let tl := text.data
    match tryPatternValue (pattern1 fl tl) ty with
    | some v => some v
    | none =>
    match tryPatternValue (pattern2 fl tl) ty with
    | some v => some v
    | none =>
    match tryPatternValue (pattern3 fl tl) ty with
    | some v => some v
    | none =>
    match tryPatternValue (pattern4 fl tl) ty with
    | some v => some v
    | none => tryPatternValue (pattern5 fl tl) ty

/-! ## Reply scraping: `extractToolCall` / `extractFinalAnswer` -/

/-- Shared shape of the `\s*(.+?)(?=\n|$)` capture after a literal label:
skip whitespace (which in JS regexes may cross line breaks), then take the
rest of the line, requiring at least one character. -/
def captureAfterWs (l : List Char) : Option String :=
  let v := (l.dropWhile isWsChar).takeWhile (fun c => c ≠ '\n')
  if v.isEmpty then none else some (String.mk v)

structure ToolCall where
  tool : String
  input : String
deriving BEq, Repr, DecidableEq

/-- `RespAct.extractToolCall` (part_005 lines 195-208): both the
`Action:` and `Action Input:` labels (case-sensitive) must match, each
capturing its line remainder, trimmed. -/
def extractToolCall (response : String) : Option ToolCall :=
  let r := response.data
  match afterFirstSub "Action:".data r, afterFirstSub "Action Input:".data r with
  | some ra, some ri =>
    (match captureAfterWs ra, captureAfterWs ri with
     | some t, some i => some ⟨strTrim t, strTrim i⟩
     | _, _ => none)
  | _, _ => none

/-- `RespAct.extractFinalAnswer` (part_005 lines 223-241): capture after the
case-sensitive `Final Answer:` label, trim, then try number, then JSON,
then the raw string; no label yields JS `null` (`none`). -/
def extractFinalAnswer (response : String) : Option JsValue :=
  match afterFirstSub "Final Answer:".data response.data with
  | none => none
  | some r =>
    match captureAfterWs r with
    | none => none
    | some cap =>
      let answer := strTrim cap
      match jsNumberLit answer with
      | some lit => some (.num lit)
      | none =>
        match jsonParse answer with
        | some v => some v
        | none => some (.str answer)

/-! ## Signature model (signature.ts) -/

structure FieldConfig where
  description : String
  type : String
  required : Bool
deriving BEq, Repr, DecidableEq

structure ParsedSignature where
  inputs : List String
  outputs : List String
  types : List (String × String)
deriving BEq, Repr, DecidableEq

/-- `parseFields` inside `parseStringSignature`: split a side on commas,
then each field on `:`; a missing or empty type tag (`type || 'string'`)
defaults to `string`. -/
def parseSigFields (part : List Char) : List (String × String) :=
  (splitChar (fun c => c = ',') part).map (fun fld =>
    let trimmed := trimList fld
    match splitChar (fun c => c = ':') trimmed with
    | [] => ("", "string")
    | [n] => (String.mk (trimList n), "string")
    | n :: t :: _ =>
      let ty := String.mk (trimList t)
      (String.mk (trimList n), if ty = "" then "string" else ty))

/-- `Signature.parseStringSignature`: destructures the first two segments of
`signature.split('->')` (any further segments are silently dropped); with no
`->` the JS code reads `.split` off `undefined` and throws, modelled as the
error case. The `types` object is an assoc list read through
`jsLookupLast` (later entries shadow earlier ones, as object spread does). -/
def parseStringSignature (signature : String) : Except String ParsedSignature :=
  match (splitArrow signature.data).map trimList with
  | inputPart :: outputPart :: _ =>
    let inputFields := parseSigFields inputPart
    let outputFields := parseSigFields outputPart
    .ok { inputs := inputFields.map Prod.fst
          outputs := outputFields.map Prod.fst
          types := inputFields ++ outputFields }
  | _ => .error "TypeError: Cannot read properties of undefined (reading split)"

/-- A module's signature: either the terse string grammar or a class with
decorated input/output fields (`getInputFields`/`getOutputFields`). -/
inductive SigDef where
  | strSig (s : String)
  | classSig (inputFields : List (String × FieldConfig)) (outputFields : List (String × FieldConfig))
deriving BEq, Repr

/-- `Signature.getOutputFields` (the string case never reaches it). -/
def getOutputFields : SigDef → List (String × FieldConfig)
  | .strSig _ => []
  | .classSig _ ofs => ofs

/-! ## `parseOutput` (parsing.ts lines 191-221) -/

def parseOutputFromString (signatureStr rawOutput : String) :
    Except String (List (String × Option JsValue)) :=
  match parseStringSignature signatureStr with
  | .error e => .error e
  | .ok parsed =>
    .ok (parsed.outputs.map (fun k =>
      (k, extractFieldValue rawOutput k (jsLookupLast parsed.types k))))

def parseOutputFromClass (outputFields : List (String × FieldConfig)) (rawOutput : String) :
    List (String × Option JsValue) :=
  outputFields.map (fun kc => (kc.1, extractFieldValue rawOutput kc.1 (some kc.2.type)))

/-- `parseOutput(signature, rawOutput)`: dispatch on the signature kind.
Every declared output key is always assigned (`null` when nothing matched);
the only throwing path is `parseStringSignature` on an arrow-less string. -/
def parseOutputUtil (sig : SigDef) (rawOutput : String) :
    Except String (List (String × Option JsValue)) :=
  match sig with
  | .strSig s => parseOutputFromString s rawOutput
  | .classSig _ ofs => .ok (parseOutputFromClass ofs rawOutput)

/-- RespAct.parseOutput's string coercion: strings pass through, other
values go through `JSON.stringify` (JS `null` stringifies to `"null"`). -/
def stringifyRawOutput (raw : Option JsValue) : String :=
  match raw with
  | some (.str s) => s
  | some v => jsonStringify v
  | none => "null"

/-- `RespAct.parseOutput` (part_005 lines 130-146). -/
def respActParseOutput (sig : SigDef) (rawOutput : Option JsValue) :
    Except String (List (String × Option JsValue)) :=
  parseOutputUtil sig (stringifyRawOutput rawOutput)

/-! ## RespAct: construction -/

/-- A normalised tool: description plus capability. `fn` models the JS
`function` member; a thrown/rejected call is `.error` with the error's
string rendering. -/
structure ToolWithDescription where
  description : String
  fn : String → Except String String

/-- Caller-facing `ToolDefinition`: bare function or described tool. -/
inductive ToolDefinition where
  | bare (f : String → Except String String)
  | described (t : ToolWithDescription)

/-- Constructor normalisation: bare functions get a generic description. -/
def normalizeTools (tools : List (String × ToolDefinition)) :
    List (String × ToolWithDescription) :=
  tools.map (fun nt =>
    match nt.2 with
    | .bare f => (nt.1, ⟨"Tool: " ++ nt.1, f⟩)
    | .described t => (nt.1, t))

/-- JS `options.maxSteps || 6`: `0` (and absent) fall back to the default. -/
def jsOr (o : Option Int) (d : Int) : Int :=
  match o with
  | some n => if n = 0 then d else n
  | none => d

structure RespActConfig where
  signature : SigDef
  tools : List (String × ToolWithDescription)
  maxSteps : Int
  lm : String → String

/-- The `RespAct` constructor (part_005 lines 21-44); `lm` is the
language-model capability `this.lm.generate`. -/
def mkRespAct (signature : SigDef) (tools : List (String × ToolDefinition))
    (maxStepsOpt : Option Int) (lm : String → String) : RespActConfig :=
  { signature := signature
    tools := normalizeTools tools
    maxSteps := jsOr maxStepsOpt 6
    lm := lm }

/-! ## RespAct: tool execution and the loop -/

def lookupTool (tools : List (String × ToolWithDescription)) (name : String) :
    Option ToolWithDescription :=
  (tools.find? (fun t => t.1 == name)).map Prod.snd

/-- `RespAct.executeTool` (part_005 lines 210-221): unknown tools and
throwing tools both RESOLVE to an error-describing string; the promise
itself never rejects, so the result is always `.ok`. -/
def executeTool (tools : List (String × ToolWithDescription))
    (toolName input : String) : Except String String :=
  match lookupTool tools toolName with
  | none =>
    .ok ("Error: Tool '" ++ toolName ++ "' not found. Available tools: " ++
      joinComma (tools.map Prod.fst))
  | some tool =>
    match tool.fn input with
    | .ok result => .ok result
    | .error e => .ok ("Error executing " ++ toolName ++ ": " ++ e)

/-- The structured-output suffix of the initial prompt. -/
def outputFormatInstruction (sig : SigDef) : String :=
  match sig with
  | .classSig _ ofs =>
    let fieldNames := ofs.map Prod.fst
    if fieldNames.length > 0 then
      "\n\nIMPORTANT: When providing your Final Answer, you MUST provide ALL the following fields in this EXACT format:\n\n" ++
      String.join (fieldNames.map (fun f => f ++ ": [your response for " ++ f ++ "]\n"))
    else ""
  | .strSig _ => ""

/-- `RespAct.buildInitialPrompt` (part_005 lines 148-193); the question is
passed directly (the `JSON.stringify(inputs)` fallback for question-less
input maps is not modelled — the claims quantify over the question text). -/
def buildInitialPrompt (cfg : RespActConfig) (question : String) : String :=
  let toolDescriptions :=
    joinNewline (cfg.tools.map (fun t => "- " ++ t.1 ++ ": " ++ t.2.description))
  "You have access to the following tools:\n" ++ toolDescriptions ++
  "\n\nQuestion: " ++ question ++
  "\n\nIMPORTANT: You MUST use the available tools to solve this question. Do not attempt to answer directly without using tools when tools are available for the task.\n\nCRITICAL: Take ONE action at a time. After each action, you will receive an observation. Do NOT plan multiple actions in advance.\n\nWork systematically:\n1. Gather all necessary data using tools\n2. Perform calculations if needed \n3. When you have ALL the information needed to answer the question completely, provide your Final Answer\n\nUse this EXACT format (DO NOT generate the Observation line - it will be provided automatically):\nThought: [your reasoning about what to do next]\nAction: [tool name]\nAction Input: [input to the tool]\n\nAfter you receive the Observation, you can then decide your next action. \n\nWhen you have gathered ALL necessary information through tool usage, provide:\nThought: [reasoning that you now have everything needed]\nFinal Answer: [complete answer to the original question using all gathered information]" ++
  outputFormatInstruction cfg.signature ++
  "\n\nBegin! Remember: ONE action at a time, then decide if you need more information or can provide the final answer."

/-- Loop-local state. `genCalls` counts `lm.generate` invocations and
`toolExecs` records the dedup keys whose tool function was actually
invoked — pure instrumentation mirroring observable effects; the code's
own state is `conversation` and `previousToolCalls`. -/
structure LoopState where
  conversation : String
  previousToolCalls : List String
  genCalls : Nat
  toolExecs : List String
deriving Repr

inductive StepOutcome where
  | next (st : LoopState)
  | done (data : List (String × Option JsValue)) (steps : Nat) (st : LoopState)
deriving Repr

/-- part_005 lines 106-120: fall back to a synthetic `answer` field, or
defensively merge the raw answer in when no field named `answer` exists. -/
def buildFinalAnswerData (parsed : List (String × Option JsValue))
    (rawAnswer : Option JsValue) : List (String × Option JsValue) :=
  let parsedKeys := parsed.map Prod.fst
  let hasValidParsedData := parsed.any (fun kv => kv.2.isSome)
  if !hasValidParsedData || parsedKeys.length == 0 then [("answer", rawAnswer)]
  else if !(parsedKeys.contains "answer") && rawAnswer.isSome then
    parsed ++ [("answer", rawAnswer)]
  else parsed

/-- The tool-call path of one iteration (part_005 lines 59-77): dedup check
against `previousToolCalls`, then execution with the (dead, see
`executeTool`) rejection handler. -/
def toolBranch (cfg : RespActConfig) (tc : ToolCall) (st : LoopState) : LoopState :=
  let toolCallKey := tc.tool ++ ":" ++ tc.input
  if st.previousToolCalls.contains toolCallKey then
    { st with conversation := st.conversation ++
        "\n\nObservation: You have already made this tool call. Please move to the next step." }
  else
    let st2 := { st with
      previousToolCalls := st.previousToolCalls ++ [toolCallKey]
      toolExecs := st.toolExecs ++
        (if (lookupTool cfg.tools tc.tool).isSome then [toolCallKey] else []) }
    match executeTool cfg.tools tc.tool tc.input with
    | .ok observation =>
      { st2 with conversation := st2.conversation ++ "\n\nObservation: " ++ observation }
    | .error e =>
      { st2 with conversation := st2.conversation ++ "\n\nObservation: Error - " ++ e }

/-- `parseOutput` call wrapped in the loop's try/catch (lines 84-89): a
parse failure degrades to the empty object. -/
def parsedOfReply (cfg : RespActConfig) (rawAnswer : Option JsValue) :
    List (String × Option JsValue) :=
  match respActParseOutput cfg.signature rawAnswer with
  | .ok p => p
  | .error _ => []

/-- The final-answer path of one iteration (part_005 lines 80-124). -/
def finalAnswerBranch (cfg : RespActConfig) (response : String) (stepIdx : Nat)
    (st1 : LoopState) : StepOutcome :=
  let rawAnswer := extractFinalAnswer response
  let parsedFromSignature := parsedOfReply cfg rawAnswer
  let isClass := match cfg.signature with
    | .classSig _ _ => true
    | .strSig _ => false
  let providedFields := (parsedFromSignature.filter (fun kv => kv.2.isSome)).map Prod.fst
  if isClass && providedFields.length == 0 then
    .next { st1 with conversation := (st1.conversation ++
      "\n\nObservation: Your Final Answer needs to include structured fields: " ++
      joinComma ((getOutputFields cfg.signature).map Prod.fst) ++
      ". Please provide a Final Answer with the required format.") }
  else
    .done (buildFinalAnswerData parsedFromSignature rawAnswer) (stepIdx + 1) st1

/-- One iteration of `RespAct.forward`'s loop (part_005 lines 53-125):
generate, append the thought, then tool-call detection FIRST, final-answer
detection only when no tool call was found, otherwise fall through. -/
def runStep (cfg : RespActConfig) (stepIdx : Nat) (st : LoopState) : StepOutcome :=
  let response := cfg.lm (st.conversation ++ "\n\nThought:")
  let st1 := { st with
    conversation := st.conversation ++ "\n\nThought: " ++ response
    genCalls := st.genCalls + 1 }
  match extractToolCall response with
  | some tc => .next (toolBranch cfg tc st1)
  | none =>
    if containsStr (lowerStr response) "final answer:" then
      finalAnswerBranch cfg response stepIdx st1
    else
      .next st1

structure RunResult where
  data : List (String × Option JsValue)
  steps : Nat
deriving Repr

/-- The step-exhaustion error (part_005 line 127). -/
def exceededMsg (maxSteps : Int) : String :=
  "RespAct exceeded maximum steps (" ++ toString maxSteps ++ ") without finding answer"

/-- The bounded `for` loop: `fuel` is the number of remaining iterations
(`maxSteps - stepIdx`); exhaustion throws. The final `LoopState` is
returned alongside so the transcript and the instrumentation stay
observable. -/
def forwardLoop (cfg : RespActConfig) : Nat → Nat → LoopState →
    Except String RunResult × LoopState
  | _, 0, st => (.error (exceededMsg cfg.maxSteps), st)
  | stepIdx, fuel + 1, st =>
    match runStep cfg stepIdx st with
    | .next st2 => forwardLoop cfg (stepIdx + 1) fuel st2
    | .done data steps st2 => (.ok ⟨data, steps⟩, st2)

/-- `RespAct.forward`: fresh per-invocation state, `maxSteps` iterations
(`Int.toNat` makes a negative limit run zero iterations, as `step <
maxSteps` does). -/
def forward (cfg : RespActConfig) (question : String) :
    Except String RunResult × LoopState :=
  forwardLoop cfg 0 cfg.maxSteps.toNat
    ⟨buildInitialPrompt cfg question, [], 0, []⟩


/-! ## General lemmas about the loop -/

/-- `executeTool` resolves on every input: unknown tools and throwing tools
are both converted to observation strings inside it, so the `catch` branch
of the loop body can never fire. -/
theorem executeTool_isOk (tools : List (String × ToolWithDescription))
    (toolName input : String) : (executeTool tools toolName input).isOk = true := by
  simp only [executeTool]
  split
  · rfl
  · split <;> rfl

/-- The state carried out of a step, for invariant bookkeeping. -/
def stateOf : StepOutcome → LoopState
  | .next st => st
  | .done _ _ st => st

theorem toolBranch_genCalls (cfg : RespActConfig) (tc : ToolCall) (st : LoopState) :
    (toolBranch cfg tc st).genCalls = st.genCalls := by
  simp only [toolBranch]
  cases hc : st.previousToolCalls.contains (tc.tool ++ ":" ++ tc.input) with
  | true => rfl
  | false => cases hE : executeTool cfg.tools tc.tool tc.input <;> rfl

theorem finalAnswerBranch_genCalls (cfg : RespActConfig) (response : String)
    (i : Nat) (st : LoopState) :
    (stateOf (finalAnswerBranch cfg response i st)).genCalls = st.genCalls := by
  simp only [finalAnswerBranch]
  split <;> rfl

theorem stateOf_runStep_genCalls (cfg : RespActConfig) (i : Nat) (st : LoopState) :
    (stateOf (runStep cfg i st)).genCalls = st.genCalls + 1 := by
  simp only [runStep]
  split
  · simp only [stateOf]
    exact toolBranch_genCalls cfg _ _
  · split
    · exact finalAnswerBranch_genCalls cfg _ i _
    · rfl

/-- The loop invariant tying the instrumentation to the dedup set: executed
keys are distinct, and every executed key was recorded in
`previousToolCalls`. -/
def ExecInv (st : LoopState) : Prop :=
  st.toolExecs.Nodup ∧ ∀ k ∈ st.toolExecs, k ∈ st.previousToolCalls

theorem toolBranch_execInv (cfg : RespActConfig) (tc : ToolCall) (st : LoopState)
    (h : ExecInv st) : ExecInv (toolBranch cfg tc st) := by
  obtain ⟨h1, h2⟩ := h
  simp only [toolBranch]
  cases hc : st.previousToolCalls.contains (tc.tool ++ ":" ++ tc.input) with
  | true => exact ⟨h1, h2⟩
  | false =>
    have hkey : (tc.tool ++ ":" ++ tc.input) ∉ st.previousToolCalls := by
      intro hmem
      rw [← List.elem_iff] at hmem
      rw [List.contains] at hc
      rw [hmem] at hc
      exact Bool.true_eq_false.mp hc
    have hinv2 : (st.toolExecs ++
        (if (lookupTool cfg.tools tc.tool).isSome then [tc.tool ++ ":" ++ tc.input] else [])).Nodup ∧
        ∀ k ∈ st.toolExecs ++
          (if (lookupTool cfg.tools tc.tool).isSome then [tc.tool ++ ":" ++ tc.input] else []),
          k ∈ st.previousToolCalls ++ [tc.tool ++ ":" ++ tc.input] := by
      constructor
      · split
        · refine List.Nodup.append h1 (List.nodup_singleton _) ?_
          intro k hk hk2
          rw [List.mem_singleton] at hk2
          exact hkey (hk2 ▸ h2 k hk)
        · simpa using h1
      · intro k hk
        rw [List.mem_append] at hk
        rcases hk with hk | hk
        · exact List.mem_append_left _ (h2 k hk)
        · refine List.mem_append_right _ ?_
          split at hk
          · exact hk
          · simp at hk
    cases hE : executeTool cfg.tools tc.tool tc.input with
    | ok observation => exact hinv2
    | error e => exact hinv2

theorem finalAnswerBranch_execInv (cfg : RespActConfig) (response : String)
    (i : Nat) (st : LoopState) (h : ExecInv st) :
    ExecInv (stateOf (finalAnswerBranch cfg response i st)) := by
  simp only [finalAnswerBranch]
  split
  · exact h
  · exact h

theorem stateOf_runStep_execInv (cfg : RespActConfig) (i : Nat) (st : LoopState)
    (h : ExecInv st) : ExecInv (stateOf (runStep cfg i st)) := by
  simp only [runStep]
  split
  · simp only [stateOf]
    exact toolBranch_execInv cfg _ _ ⟨h.1, h.2⟩
  · split
    · exact finalAnswerBranch_execInv cfg _ i _ ⟨h.1, h.2⟩
    · exact h

theorem forwardLoop_execInv (cfg : RespActConfig) :
    ∀ (fuel i : Nat) (st : LoopState), ExecInv st →
      ExecInv (forwardLoop cfg i fuel st).2 := by
  intro fuel
  induction fuel with
  | zero => intro i st h; exact h
  | succ fuel ih =>
    intro i st h
    have hstep := stateOf_runStep_execInv cfg i st h
    unfold forwardLoop
    cases hs : runStep cfg i st with
    | next st2 =>
      rw [hs] at hstep
      exact ih (i + 1) st2 hstep
    | done data steps st2 =>
      rw [hs] at hstep
      exact hstep

/-- Only the step-exhaustion message is ever thrown by the loop. -/
theorem forwardLoop_error_msg (cfg : RespActConfig) :
    ∀ (fuel i : Nat) (st : LoopState) (e : String),
      (forwardLoop cfg i fuel st).1 = .error e → e = exceededMsg cfg.maxSteps := by
  intro fuel
  induction fuel with
  | zero =>
    intro i st e h
    simp only [forwardLoop] at h
    exact (Except.error.inj h).symm
  | succ fuel ih =>
    intro i st e h
    unfold forwardLoop at h
    cases hs : runStep cfg i st with
    | next st2 =>
      rw [hs] at h
      exact ih (i + 1) st2 e h
    | done data steps st2 =>
      rw [hs] at h
      exact absurd h (by simp)

/-- Under a model that never emits `final answer:` outside a detected tool
call, every iteration continues the loop. -/
theorem runStep_next_of_no_final (cfg : RespActConfig)
    (hlm : ∀ p : String, containsStr (lowerStr (cfg.lm p)) "final answer:" = true →
      extractToolCall (cfg.lm p) ≠ none) (i : Nat) (st : LoopState) :
    ∃ st2, runStep cfg i st = .next st2 := by
  cases h : extractToolCall (cfg.lm (st.conversation ++ "\n\nThought:")) with
  | some tc =>
    refine ⟨toolBranch cfg tc { st with
      conversation := st.conversation ++ "\n\nThought: " ++ cfg.lm (st.conversation ++ "\n\nThought:")
      genCalls := st.genCalls + 1 }, ?_⟩
    simp only [runStep, h]
  | none =>
    cases hfa : containsStr (lowerStr (cfg.lm (st.conversation ++ "\n\nThought:"))) "final answer:" with
    | true => exact absurd h (hlm _ hfa)
    | false =>
      refine ⟨{ st with
        conversation := st.conversation ++ "\n\nThought: " ++ cfg.lm (st.conversation ++ "\n\nThought:")
        genCalls := st.genCalls + 1 }, ?_⟩
      simp only [runStep, h, hfa, Bool.false_eq_true, if_false]

/-- Exhaustion: with no final answer ever, the loop consumes all its fuel,
makes one `lm.generate` call per iteration, and throws. -/
theorem forwardLoop_exhausts (cfg : RespActConfig)
    (hlm : ∀ p : String, containsStr (lowerStr (cfg.lm p)) "final answer:" = true →
      extractToolCall (cfg.lm p) ≠ none) :
    ∀ (fuel i : Nat) (st : LoopState),
      (forwardLoop cfg i fuel st).1 = .error (exceededMsg cfg.maxSteps) ∧
      (forwardLoop cfg i fuel st).2.genCalls = st.genCalls + fuel := by
  intro fuel
  induction fuel with
  | zero => intro i st; exact ⟨rfl, rfl⟩
  | succ fuel ih =>
    intro i st
    obtain ⟨st2, hstep⟩ := runStep_next_of_no_final cfg hlm i st
    have hgen : st2.genCalls = st.genCalls + 1 := by
      have := stateOf_runStep_genCalls cfg i st
      rw [hstep] at this
      exact this
    unfold forwardLoop
    rw [hstep]
    obtain ⟨he, hg⟩ := ih (i + 1) st2
    refine ⟨he, ?_⟩
    rw [hg, hgen]
    omega

/-! ## Claim theorems -/

/-- C1: for any `maxSteps = N ≥ 1` and any model behaviour whose replies
never contain `final answer:` (case-insensitively) outside a detected tool
call, `RespAct.forward` makes exactly `N` calls to `lm.generate` — one per
iteration — and then throws the step-exhaustion error naming the configured
maximum. -/
theorem respact_exhausts_after_exactly_maxSteps (cfg : RespActConfig) (question : String)
    (hN : 1 ≤ cfg.maxSteps)
    (hlm : ∀ p : String, containsStr (lowerStr (cfg.lm p)) "final answer:" = true →
      extractToolCall (cfg.lm p) ≠ none) :
    (forward cfg question).1 = .error (exceededMsg cfg.maxSteps) ∧
    (forward cfg question).2.genCalls = cfg.maxSteps.toNat := by
  obtain ⟨he, hg⟩ := forwardLoop_exhausts cfg hlm cfg.maxSteps.toNat 0
    ⟨buildInitialPrompt cfg question, [], 0, []⟩
  exact ⟨he, by simpa using hg⟩

def cfgNoAnswer : RespActConfig :=
  mkRespAct (.strSig "question -> answer") [] (some 2) (fun _ => "I am thinking")

theorem respact_exhausts_after_exactly_maxSteps_w :
    (forward cfgNoAnswer "q").1 = .error (exceededMsg cfgNoAnswer.maxSteps) ∧
    (forward cfgNoAnswer "q").2.genCalls = cfgNoAnswer.maxSteps.toNat :=
  respact_exhausts_after_exactly_maxSteps cfgNoAnswer "q" (by decide)
    (fun _ h => absurd h
      (by decide : ¬ containsStr (lowerStr "I am thinking") "final answer:" = true))

/-- C2: a reply containing both a well-formed `Action:`/`Action Input:`
pair and the text `Final Answer:` is processed purely as a tool call: the
step continues the loop through the tool path and can never terminate with
a result on that reply — the final-answer branch is not entered. -/
theorem toolcall_takes_priority_over_final_answer (cfg : RespActConfig) (i : Nat)
    (st : LoopState) (tc : ToolCall)
    (h1 : extractToolCall (cfg.lm (st.conversation ++ "\n\nThought:")) = some tc)
    (h2 : containsStr (lowerStr (cfg.lm (st.conversation ++ "\n\nThought:"))) "final answer:" = true) :
    runStep cfg i st = .next (toolBranch cfg tc { st with
      conversation := st.conversation ++ "\n\nThought: " ++ cfg.lm (st.conversation ++ "\n\nThought:")
      genCalls := st.genCalls + 1 }) ∧
    ∀ (data : List (String × Option JsValue)) (n : Nat) (st2 : LoopState),
      runStep cfg i st ≠ .done data n st2 := by
  have hmain : runStep cfg i st = .next (toolBranch cfg tc { st with
      conversation := st.conversation ++ "\n\nThought: " ++ cfg.lm (st.conversation ++ "\n\nThought:")
      genCalls := st.genCalls + 1 }) := by
    simp only [runStep, h1]
  refine ⟨hmain, ?_⟩
  intro data n st2 hd
  rw [hmain] at hd
  exact StepOutcome.noConfusion hd

def cfgBothLines : RespActConfig :=
  mkRespAct (.strSig "question -> answer")
    [("add", .bare (fun s => .ok ("sum " ++ s)))] (some 6)
    (fun _ => "Action: add\nAction Input: 2,3\nFinal Answer: 5")

def stEmpty : LoopState := ⟨"", [], 0, []⟩

theorem toolcall_takes_priority_over_final_answer_w :
    (runStep cfgBothLines 0 stEmpty = .next (toolBranch cfgBothLines ⟨"add", "2,3"⟩ { stEmpty with
      conversation := stEmpty.conversation ++ "\n\nThought: " ++ cfgBothLines.lm (stEmpty.conversation ++ "\n\nThought:")
      genCalls := stEmpty.genCalls + 1 }) ∧
    ∀ (data : List (String × Option JsValue)) (n : Nat) (st2 : LoopState),
      runStep cfgBothLines 0 stEmpty ≠ .done data n st2) :=
  toolcall_takes_priority_over_final_answer cfgBothLines 0 stEmpty ⟨"add", "2,3"⟩
    (by decide) (by decide)

/-- C3: within one invocation every dedup key `tool:input` executes the
tool function at most once (the executed-key log of any full run is
duplicate-free), and a step whose extracted tool call repeats a recorded
key only appends the repeated-call observation and continues — still
consuming its iteration. -/
theorem tool_dedup_executes_at_most_once (cfg : RespActConfig) (question : String) :
    ((forward cfg question).2.toolExecs).Nodup ∧
    ∀ (i : Nat) (st : LoopState) (tc : ToolCall),
      extractToolCall (cfg.lm (st.conversation ++ "\n\nThought:")) = some tc →
      st.previousToolCalls.contains (tc.tool ++ ":" ++ tc.input) = true →
      runStep cfg i st = .next { st with
        conversation := st.conversation ++ "\n\nThought: " ++ cfg.lm (st.conversation ++ "\n\nThought:") ++
          "\n\nObservation: You have already made this tool call. Please move to the next step."
        genCalls := st.genCalls + 1 } := by
  constructor
  · have hinit : ExecInv ⟨buildInitialPrompt cfg question, [], 0, []⟩ := by
      constructor
      · exact List.nodup_nil
      · intro k hk
        exact absurd hk (List.not_mem_nil k)
    exact (forwardLoop_execInv cfg cfg.maxSteps.toNat 0 _ hinit).1
  · intro i st tc h1 h2
    simp only [runStep, h1, toolBranch, h2, if_true]

def cfgRepeatCall : RespActConfig :=
  mkRespAct (.strSig "question -> answer")
    [("lookup", .bare (fun s => .ok ("looked up " ++ s)))] (some 4)
    (fun _ => "Action: lookup\nAction Input: apple")

def stSeenCall : LoopState := ⟨"", ["lookup:apple"], 1, ["lookup:apple"]⟩

theorem tool_dedup_executes_at_most_once_w :
    ((forward cfgRepeatCall "q").2.toolExecs).Nodup ∧
    runStep cfgRepeatCall 1 stSeenCall = .next { stSeenCall with
      conversation := stSeenCall.conversation ++ "\n\nThought: " ++
        cfgRepeatCall.lm (stSeenCall.conversation ++ "\n\nThought:") ++
        "\n\nObservation: You have already made this tool call. Please move to the next step."
      genCalls := stSeenCall.genCalls + 1 } :=
  ⟨(tool_dedup_executes_at_most_once cfgRepeatCall "q").1,
   (tool_dedup_executes_at_most_once cfgRepeatCall "q").2 1 stSeenCall ⟨"lookup", "apple"⟩
     (by decide) (by decide)⟩

def stockFields : List (String × FieldConfig) :=
  [("symbol", ⟨"Output field: symbol", "string", true⟩),
   ("price", ⟨"Output field: price", "string", true⟩)]

def cfgStocksPartial : RespActConfig :=
  mkRespAct (.classSig [] stockFields) [] (some 6)
    (fun _ => "I know the ticker now.\nFinal Answer: symbol: AAPL")

/-- C4 counterexample: with the `{symbol, price}` class signature, the very
first `Final Answer:` reply supplies only `symbol`, yet `forward` returns a
result with `steps = 1` — it terminates on that same iteration with
`price` bound to `null`, instead of appending a corrective observation and
waiting for both fields. -/
theorem incomplete_final_answer_terminates_immediately :
    (forward cfgStocksPartial "What is the price of AAPL?").1 =
      .ok ⟨[("symbol", some (.str "AAPL")), ("price", none),
            ("answer", some (.str "symbol: AAPL"))], 1⟩ := by
  rfl

/-- C4 (amended): the loop terminates on the first final-answer iteration
whose reply yields at least ONE non-null parsed output field — the
"temporarily relaxed validation" — so a `{symbol, price}` answer missing
`price` is accepted immediately; only a reply with zero non-null fields
triggers the corrective observation. -/
theorem structured_answer_accepts_incomplete_fields (cfg : RespActConfig) (i : Nat)
    (st : LoopState) (ifs ofs : List (String × FieldConfig)) (resp : String)
    (hresp : cfg.lm (st.conversation ++ "\n\nThought:") = resp)
    (hsig : cfg.signature = .classSig ifs ofs)
    (htc : extractToolCall resp = none)
    (hfa : containsStr (lowerStr resp) "final answer:" = true)
    (hsome : (parsedOfReply cfg (extractFinalAnswer resp)).any (fun kv => kv.2.isSome) = true) :
    runStep cfg i st = .done
      (buildFinalAnswerData (parsedOfReply cfg (extractFinalAnswer resp))
        (extractFinalAnswer resp))
      (i + 1)
      { st with
        conversation := st.conversation ++ "\n\nThought: " ++ resp
        genCalls := st.genCalls + 1 } := by
  obtain ⟨kv, hkvmem, hkvp⟩ := List.any_eq_true.mp hsome
  have hmemf : kv ∈ (parsedOfReply cfg (extractFinalAnswer resp)).filter
      (fun kv => kv.2.isSome) := List.mem_filter.mpr ⟨hkvmem, hkvp⟩
  have hpos : 0 < ((parsedOfReply cfg (extractFinalAnswer resp)).filter
      (fun kv => kv.2.isSome)).length :=
    List.length_pos.mpr (List.ne_nil_of_mem hmemf)
  have hbeq : ((((parsedOfReply cfg (extractFinalAnswer resp)).filter
      (fun kv => kv.2.isSome)).map Prod.fst).length == 0) = false := by
    rw [List.length_map, beq_eq_false_iff_ne]
    omega
  simp only [runStep, hresp, htc, hfa, if_true, finalAnswerBranch, hsig, hbeq,
    Bool.and_false, Bool.false_eq_true, if_false]

theorem structured_answer_accepts_incomplete_fields_w :
    runStep cfgStocksPartial 0 stEmpty = .done
      (buildFinalAnswerData
        (parsedOfReply cfgStocksPartial
          (extractFinalAnswer "I know the ticker now.\nFinal Answer: symbol: AAPL"))
        (extractFinalAnswer "I know the ticker now.\nFinal Answer: symbol: AAPL"))
      1
      { stEmpty with
        conversation := stEmpty.conversation ++ "\n\nThought: " ++
          "I know the ticker now.\nFinal Answer: symbol: AAPL"
        genCalls := stEmpty.genCalls + 1 } :=
  structured_answer_accepts_incomplete_fields cfgStocksPartial 0 stEmpty [] stockFields
    "I know the ticker now.\nFinal Answer: symbol: AAPL" rfl rfl
    (by decide) (by decide) (by decide)

/-- C5: for a class signature, a `Final Answer:` reply from which zero
output fields parse non-null neither succeeds nor throws on that
iteration: the step appends the observation naming the required field
names and continues the loop. -/
theorem zero_field_final_answer_retries (cfg : RespActConfig) (i : Nat)
    (st : LoopState) (ifs ofs : List (String × FieldConfig)) (resp : String)
    (hresp : cfg.lm (st.conversation ++ "\n\nThought:") = resp)
    (hsig : cfg.signature = .classSig ifs ofs)
    (htc : extractToolCall resp = none)
    (hfa : containsStr (lowerStr resp) "final answer:" = true)
    (hzero : (parsedOfReply cfg (extractFinalAnswer resp)).all
      (fun kv => !kv.2.isSome) = true) :
    runStep cfg i st = .next { st with
      conversation := st.conversation ++ "\n\nThought: " ++ resp ++
        "\n\nObservation: Your Final Answer needs to include structured fields: " ++
        joinComma (ofs.map Prod.fst) ++ ". Please provide a Final Answer with the required format."
      genCalls := st.genCalls + 1 } := by
  have hfil : (parsedOfReply cfg (extractFinalAnswer resp)).filter
      (fun kv => kv.2.isSome) = [] := by
    rw [List.filter_eq_nil_iff]
    intro a ha
    have := List.all_eq_true.mp hzero a ha
    simpa using this
  simp only [runStep, hresp, htc, hfa, if_true, finalAnswerBranch, hsig, hfil,
    getOutputFields, List.map_nil, List.length_nil]
  rfl

def cfgStocksVague : RespActConfig :=
  mkRespAct (.classSig [] stockFields) [] (some 3)
    (fun _ => "Final Answer: I do not know")

theorem zero_field_final_answer_retries_w :
    runStep cfgStocksVague 0 stEmpty = .next { stEmpty with
      conversation := stEmpty.conversation ++ "\n\nThought: " ++ "Final Answer: I do not know" ++
        "\n\nObservation: Your Final Answer needs to include structured fields: " ++
        joinComma (stockFields.map Prod.fst) ++ ". Please provide a Final Answer with the required format."
      genCalls := stEmpty.genCalls + 1 } :=
  zero_field_final_answer_retries cfgStocksVague 0 stEmpty [] stockFields
    "Final Answer: I do not know" rfl rfl (by decide) (by decide) (by decide)

/-- Does the signature's own parsing succeed? Class signatures always do; a
string signature parses exactly when it contains the arrow. -/
def sigParses : SigDef → Bool
  | .classSig _ _ => true
  | .strSig s => (parseStringSignature s).isOk

/-- The declared output field names of a signature. -/
def declaredOutputs : SigDef → List String
  | .classSig _ ofs => ofs.map Prod.fst
  | .strSig s =>
    match parseStringSignature s with
    | .ok p => p.outputs
    | .error _ => []

theorem map_fst_pairs {α β γ : Type} (l : List α) (g : α → β) (f : α → γ) :
    ((l.map (fun a => (g a, f a))).map Prod.fst) = l.map g := by
  induction l with
  | nil => rfl
  | cons a t ih => simp only [List.map_cons, ih]

/-- C6: for every signature whose own declaration parses and EVERY output
text, `parseOutput` returns (never throws) a mapping whose key list is
exactly the declared output field names — no key omitted; each value is the
`extractFieldValue` result, which is `none` (JS `null`) when no strategy
matched, by construction of `parseOutputFromClass`/`parseOutputFromString`. -/
theorem parse_output_never_omits_keys (sig : SigDef) (t : String)
    (h : sigParses sig = true) :
    ∃ m, parseOutputUtil sig t = .ok m ∧ m.map Prod.fst = declaredOutputs sig := by
  cases sig with
  | classSig ifs ofs =>
    refine ⟨parseOutputFromClass ofs t, rfl, ?_⟩
    simp only [parseOutputFromClass, declaredOutputs]
    exact map_fst_pairs ofs (fun kc => kc.1)
      (fun kc => extractFieldValue t kc.1 (some kc.2.type))
  | strSig s =>
    cases hp : parseStringSignature s with
    | error e =>
      simp only [sigParses, hp, Except.isOk, Except.toBool] at h
      exact Bool.noConfusion h
    | ok p =>
      refine ⟨p.outputs.map (fun k =>
        (k, extractFieldValue t k (jsLookupLast p.types k))), ?_, ?_⟩
      · simp only [parseOutputUtil, parseOutputFromString, hp]
      · simp only [declaredOutputs, hp]
        have := map_fst_pairs p.outputs (fun k => k)
          (fun k => extractFieldValue t k (jsLookupLast p.types k))
        simpa using this

theorem parse_output_never_omits_keys_w :
    ∃ m, parseOutputUtil (.classSig [] stockFields) "]]] no fields \n\n *** : :" = .ok m ∧
      m.map Prod.fst = declaredOutputs (.classSig [] stockFields) :=
  parse_output_never_omits_keys (.classSig [] stockFields) "]]] no fields \n\n *** : :" rfl

/-- C7 counterexample: a signature declaring the single output field
`result`, and the colon-free, newline-free reply `Paris`: extraction does
NOT treat the whole reply as the value — it yields `null`, because the
whole-reply shortcut in `extractFieldValue` fires only for a field
literally named `answer`, and no pattern finds the token `result` in the
text. -/
theorem sole_field_not_whole_reply :
    parseOutputUtil (.strSig "question -> result") "Paris" = .ok [("result", none)] := by
  rfl

/-- C7 (amended): the whole-reply rule is keyed to the field NAME `answer`
(the code checks `fieldName === 'answer'`, not sole-field-ness): for any
field named `answer`, any reply without colon or line break whose trimmed
artifact-stripped text is non-empty is taken wholesale as the value (then
type-coerced), whatever the other declared fields are. -/
theorem answer_named_field_takes_whole_reply (text : String) (ty : Option String)
    (hcolon : text.data.contains ':' = false)
    (hnl : text.data.contains '\n' = false)
    (hne : stripArtifacts (strTrim text) ≠ "") :
    extractFieldValue text "answer" ty =
      some (convertValue (stripArtifacts (strTrim text)) ty) := by
  simp only [extractFieldValue, hcolon, hnl, Bool.not_false, Bool.and_true]
  rw [if_pos hne]
  rfl

theorem answer_named_field_takes_whole_reply_w :
    extractFieldValue "Paris" "answer" (some "string") =
      some (convertValue (stripArtifacts (strTrim "Paris")) (some "string")) :=
  answer_named_field_takes_whole_reply "Paris" (some "string")
    (by decide) (by decide) (by decide)

def cfgThrowingTool : RespActConfig :=
  mkRespAct (.strSig "question -> answer")
    [("add", .described ⟨"adds numbers", fun _ => .error "boom"⟩)] (some 6)
    (fun _ => "Action: add\nAction Input: 2,3")

/-- C8 counterexample: a throwing tool produces the transcript entry
`Observation: Error executing add: boom` — formatted inside `executeTool`,
which catches the throw — and NOT an entry of the claimed form
`Observation: Error - <error text>`; the loop continues. -/
theorem tool_error_observation_format :
    runStep cfgThrowingTool 0 stEmpty = .next
      ⟨"\n\nThought: Action: add\nAction Input: 2,3\n\nObservation: Error executing add: boom",
       ["add:2,3"], 1, ["add:2,3"]⟩ ∧
    containsStr "\n\nThought: Action: add\nAction Input: 2,3\n\nObservation: Error executing add: boom"
      "Observation: Error - " = false := by
  exact ⟨rfl, rfl⟩

/-- C8 (amended): a throwing tool's iteration appends
`Observation: Error executing <tool>: <error>` and continues; the failure
never propagates — `executeTool` always resolves (so the loop's own
`Observation: Error - ` catch branch is unreachable), and the only error
`forward` can ever throw is the step-exhaustion message. -/
theorem tool_throw_recovered_in_loop (cfg : RespActConfig) (i : Nat) (st : LoopState)
    (tc : ToolCall) (td : ToolWithDescription) (e resp : String)
    (hresp : cfg.lm (st.conversation ++ "\n\nThought:") = resp)
    (htc : extractToolCall resp = some tc)
    (hnew : st.previousToolCalls.contains (tc.tool ++ ":" ++ tc.input) = false)
    (hfound : lookupTool cfg.tools tc.tool = some td)
    (hthrow : td.fn tc.input = .error e) :
    runStep cfg i st = .next { st with
      conversation := st.conversation ++ "\n\nThought: " ++ resp ++ "\n\nObservation: " ++
        ("Error executing " ++ tc.tool ++ ": " ++ e)
      previousToolCalls := st.previousToolCalls ++ [tc.tool ++ ":" ++ tc.input]
      genCalls := st.genCalls + 1
      toolExecs := st.toolExecs ++ [tc.tool ++ ":" ++ tc.input] } ∧
    (∀ (tools : List (String × ToolWithDescription)) (name input : String),
      (executeTool tools name input).isOk = true) ∧
    (∀ (q e2 : String), (forward cfg q).1 = .error e2 → e2 = exceededMsg cfg.maxSteps) := by
  refine ⟨?_, executeTool_isOk, ?_⟩
  · simp only [runStep, hresp, htc, toolBranch, hnew, Bool.false_eq_true, if_false,
      executeTool, hfound, hthrow, Option.isSome_some, if_true]
  · intro q e2 h
    exact forwardLoop_error_msg cfg cfg.maxSteps.toNat 0 _ e2 h

theorem tool_throw_recovered_in_loop_w :
    (runStep cfgThrowingTool 0 stEmpty = .next { stEmpty with
      conversation := stEmpty.conversation ++ "\n\nThought: " ++ "Action: add\nAction Input: 2,3" ++
        "\n\nObservation: " ++ ("Error executing " ++ "add" ++ ": " ++ "boom")
      previousToolCalls := stEmpty.previousToolCalls ++ ["add" ++ ":" ++ "2,3"]
      genCalls := stEmpty.genCalls + 1
      toolExecs := stEmpty.toolExecs ++ ["add" ++ ":" ++ "2,3"] } ∧
    (∀ (tools : List (String × ToolWithDescription)) (name input : String),
      (executeTool tools name input).isOk = true) ∧
    (∀ (q e2 : String), (forward cfgThrowingTool q).1 = .error e2 →
      e2 = exceededMsg cfgThrowingTool.maxSteps)) :=
  tool_throw_recovered_in_loop cfgThrowingTool 0 stEmpty ⟨"add", "2,3"⟩
    ⟨"adds numbers", fun _ => .error "boom"⟩ "boom" "Action: add\nAction Input: 2,3"
    rfl (by decide) (by decide) rfl rfl

/-- C9 counterexample: with two `->` separators the parser does not report
any malformed-signature error: it silently builds a signature from the
first two segments and drops the third. -/
theorem multi_arrow_silently_parses :
    parseStringSignature "a -> b -> c" =
      .ok ⟨["a"], ["b"], [("a", "string"), ("b", "string")]⟩ := by
  rfl

/-- C9 (amended): a signature string without `->` makes parsing fail (in JS
a `TypeError` from destructuring `undefined`, modelled as the error case);
a string with one or MORE `->` always parses silently — extra segments are
dropped and no malformed-signature error is ever reported. -/
theorem arrow_separator_behaviour :
    (∀ s : String, (splitArrow s.data).length = 1 →
      parseStringSignature s =
        .error "TypeError: Cannot read properties of undefined (reading split)") ∧
    (∀ s : String, 2 ≤ (splitArrow s.data).length →
      (parseStringSignature s).isOk = true) := by
  constructor
  · intro s h
    have hl : ((splitArrow s.data).map trimList).length = 1 := by
      rw [List.length_map]
      exact h
    obtain ⟨x, hx⟩ := List.length_eq_one.mp hl
    simp only [parseStringSignature, hx]
  · intro s h
    have hl : 2 ≤ ((splitArrow s.data).map trimList).length := by
      rw [List.length_map]
      exact h
    cases hx : (splitArrow s.data).map trimList with
    | nil => rw [hx] at hl; simp at hl
    | cons a t =>
      cases t with
      | nil => rw [hx] at hl; simp at hl
      | cons b r =>
        simp only [parseStringSignature, hx]
        rfl

theorem arrow_separator_behaviour_w :
    parseStringSignature "ab" =
      .error "TypeError: Cannot read properties of undefined (reading split)" ∧
    (parseStringSignature "x -> y -> z").isOk = true :=
  ⟨arrow_separator_behaviour.1 "ab" (by decide),
   arrow_separator_behaviour.2 "x -> y -> z" (by decide)⟩

/-- C10: the constructor never validates `maxSteps`: the effective limit is
the supplied value whenever it is truthy (`0` and absent fall back to the
default `6`, any non-zero value — negative included — is kept), and with a
negative limit `forward` throws the step-exhaustion error immediately,
after zero `lm.generate` calls. -/
theorem maxsteps_never_validated (sig : SigDef) (tools : List (String × ToolDefinition))
    (lm : String → String) (question : String) :
    (mkRespAct sig tools (some 0) lm).maxSteps = 6 ∧
    (mkRespAct sig tools none lm).maxSteps = 6 ∧
    (∀ n : Int, n ≠ 0 → (mkRespAct sig tools (some n) lm).maxSteps = n) ∧
    (∀ n : Int, n < 0 →
      (forward (mkRespAct sig tools (some n) lm) question).1 = .error (exceededMsg n) ∧
      (forward (mkRespAct sig tools (some n) lm) question).2.genCalls = 0) := by
  refine ⟨rfl, rfl, ?_, ?_⟩
  · intro n hn
    simp [mkRespAct, jsOr, hn]
  · intro n hn
    have hne : n ≠ 0 := by omega
    have hms : (mkRespAct sig tools (some n) lm).maxSteps = n := by
      simp [mkRespAct, jsOr, hne]
    have htn : (mkRespAct sig tools (some n) lm).maxSteps.toNat = 0 := by
      rw [hms]
      omega
    constructor
    · simp only [forward]
      rw [htn]
      simp only [forwardLoop]
      rw [hms]
    · simp only [forward]
      rw [htn]
      simp only [forwardLoop]

theorem maxsteps_never_validated_w :
    (mkRespAct (.strSig "question -> answer") [] (some 0) (fun _ => "x")).maxSteps = 6 ∧
    (mkRespAct (.strSig "question -> answer") [] (some 5) (fun _ => "x")).maxSteps = 5 ∧
    (forward (mkRespAct (.strSig "question -> answer") [] (some (-1)) (fun _ => "x")) "q").1 =
      .error (exceededMsg (-1)) ∧
    (forward (mkRespAct (.strSig "question -> answer") [] (some (-1)) (fun _ => "x")) "q").2.genCalls = 0 :=
  ⟨(maxsteps_never_validated (.strSig "question -> answer") [] (fun _ => "x") "q").1,
   (maxsteps_never_validated (.strSig "question -> answer") [] (fun _ => "x") "q").2.2.1 5 (by decide),
   ((maxsteps_never_validated (.strSig "question -> answer") [] (fun _ => "x") "q").2.2.2 (-1) (by decide)).1,
   ((maxsteps_never_validated (.strSig "question -> answer") [] (fun _ => "x") "q").2.2.2 (-1) (by decide)).2⟩
